import Mathlib

/-!
Verification of the fi-parliament-tools speaker-labeling core.

This file embeds the functions of
`src/fi_parliament_tools/transcriptMatcher/labeler.py`,
`src/fi_parliament_tools/postprocessing.py`,
`src/fi_parliament_tools/speakerAligner/match.py` and
`src/fi_parliament_tools/speakerAligner/IO.py`
as executable Lean definitions over lists of records, and proves (or refutes)
the specification claims about them.

Strings are Lean `String`s (a wrapper around `List Char`); pandas dataframes
become lists of structures; Python exceptions become `Option`/`Except`.
-/

namespace ParliamentTools

/-! ### Python string helpers -/

/-- `startsSeq needle hay` : does `hay` start with `needle`? -/
def startsSeq : List Char → List Char → Bool
  | [], _ => true
  | _ :: _, [] => false
  | a :: as, b :: bs => a == b && startsSeq as bs

/-- Python `needle in hay` substring containment on character lists. -/
def containsSeq : List Char → List Char → Bool
  | n, [] => n.isEmpty
  | n, c :: cs => startsSeq n (c :: cs) || containsSeq n cs

/-- Python `needle in hay` on strings. -/
def pyIn (needle hay : String) : Bool :=
  containsSeq needle.toList hay.toList

/-- Python `str.split(sep)` for a single-character separator: splits on every
occurrence, keeping empty pieces (`"".split(" ") == [""]`). -/
def splitOnChar (sep : Char) : List Char → List (List Char)
  | [] => [[]]
  | c :: cs =>
    match splitOnChar sep cs with
    | [] => [[c]]
    | h :: t => if c == sep then [] :: h :: t else (c :: h) :: t

/-- Python `str.strip()` : drop leading and trailing whitespace. -/
def pyStrip (l : List Char) : List Char :=
  ((l.dropWhile Char.isWhitespace).reverse.dropWhile Char.isWhitespace).reverse

/-- Number of tokens of `len(txt.strip().split(" "))` in
`labeler.match_ctm_to_transcript` line 86. -/
def rawTokenCount (txt : String) : Nat :=
  (splitOnChar ' ' (pyStrip txt.toList)).length

/-- Python `str.partition(sep)` : split around the first occurrence of `sep`;
if `sep` does not occur, return `(s, "", "")`. -/
def partitionSeq (sep : List Char) : List Char → (List Char × List Char × List Char)
  | [] => ([], [], [])
  | c :: cs =>
    if startsSeq sep (c :: cs) then ([], sep, (c :: cs).drop sep.length)
    else
      let r := partitionSeq sep cs
      (c :: r.1, r.2.1, r.2.2)

/-- Little-endian decimal digits with explicit fuel (structural recursion, so
that concrete renderings reduce inside the kernel).  With `fuel ≥ n` this
agrees with `Nat.digits 10 n`. -/
def digitsLE : Nat → Nat → List Nat
  | 0, _ => []
  | _ + 1, 0 => []
  | fuel + 1, n + 1 => (n + 1) % 10 :: digitsLE fuel ((n + 1) / 10)

/-- Big-endian decimal digit characters of a natural number (empty for 0,
which is always padded at the call sites below, matching Python's
zero-padded format specifiers). -/
def digitChars (n : Nat) : List Char :=
  ((digitsLE n n).map Nat.digitChar).reverse

/-- Left-pad a character list with '0' to width `w`. -/
def padZeros (w : Nat) (l : List Char) : List Char :=
  List.replicate (w - l.length) '0' ++ l

/-- Python `f"{i:0w}"` for an integer `i` (sign counts toward the width). -/
def pyFormatPadInt (w : Nat) (i : Int) : List Char :=
  if i < 0 then '-' :: padZeros (w - 1) (digitChars i.natAbs)
  else padZeros w (digitChars i.toNat)

/-- Numeric value of a decimal digit character. -/
def charVal (c : Char) : Nat := c.toNat - '0'.toNat

/-- Value of a big-endian decimal digit string. -/
def parseNatSeq (l : List Char) : Nat :=
  l.foldl (fun a c => 10 * a + charVal c) 0

/-- Python `int(s)` / `float(s)` on the nonnegative integer literals that occur
in segment ids; `none` models the `ValueError` on malformed input. -/
def parseNatQ (l : List Char) : Option Nat :=
  if l ≠ [] ∧ l.all Char.isDigit then some (parseNatSeq l) else none

/-- Python `int(q)` : truncation toward zero of a rational. -/
def pyInt (q : ℚ) : Int :=
  if q < 0 then -Rat.floor (-q) else Rat.floor q

/-- Python `str.rsplit(sep, k)` for a one-character separator: at most `k`
splits, taken from the right. -/
def rsplitK (sep : Char) (k : Nat) (l : List Char) : List (List Char) :=
  if (splitOnChar sep l).length ≤ k + 1 then splitOnChar sep l
  else
    List.intercalate [sep] ((splitOnChar sep l).take ((splitOnChar sep l).length - k)) ::
      (splitOnChar sep l).drop ((splitOnChar sep l).length - k)

/-! ### Data model -/

/-- One row of the alignment CTM (`.ctm_edits.segmented`), restricted to the
columns the labeling core reads: the reference token, the edit label, and the
`mpid`/`lang` columns written by the matcher. -/
structure CtmRow where
  transcript : String
  edit : String
  mpid : Int
  lang : String
  deriving Repr, DecidableEq

/-- One row of the Kaldi segments table. `end_` stands for the Python column
`end` (a Lean keyword). -/
structure SegRow where
  uttid : String
  recordid : String
  start : ℚ
  end_ : ℚ
  mpid : Int
  lang : String
  new_uttid : String
  deriving Repr, DecidableEq

/-- One record extracted from the CTM `segment_info` column by
`labeler.parse_segment_info`: `rowIdx` is the CTM row where the marker was
found (`row.name[0]`), the rest are the parsed fields. -/
structure InfoRec where
  rowIdx : Int
  seg_num : Int
  seg_start_idx : Int
  seg_end_idx : Int
  word_id : Int
  deriving Repr, DecidableEq

/-- A matching block of `difflib.SequenceMatcher.get_matching_blocks`:
offsets in the two sequences and the length of the common run. -/
structure MatchBlock where
  a : Nat
  b : Nat
  size : Nat
  deriving Repr, DecidableEq

/-! ### Python slicing -/

/-- Normalize a Python slice bound against a list of length `len`. -/
def pyIdx (len : Nat) (i : Int) : Nat :=
  if i < 0 then (max 0 (len + i)).toNat else min i.toNat len

/-- Python `l[a:b]` with integer bounds (step 1). -/
def pySliceI (l : List α) (a b : Int) : List α :=
  (l.take (pyIdx l.length b)).drop (pyIdx l.length a)

/-- Python `l[a:b]` with natural bounds (step 1). -/
def pySlice (l : List α) (a b : Nat) : List α :=
  (l.drop a).take (b - a)

/-! ### Segment labeling (`labeler.py` lines 273-364, mirrored in `match.py`) -/

/-- The mask `(df.edit != "sil") & (df.edit != "fix")` of
`labeler.get_labels` line 284. -/
def silMask (r : CtmRow) : Bool :=
  !(r.edit == "sil") && !(r.edit == "fix")

/-- The CTM slice of a segment: `main_df.<col>.iloc[start : start + length]`
with `shift = seg_start_idx - word_id`, `length = seg_end_idx - seg_start_idx`,
`start = row.name[0] + shift` (`labeler.get_segment_speaker` lines 307-310). -/
def segSlice (info : InfoRec) (df : List CtmRow) : List CtmRow :=
  let shift := info.seg_start_idx - info.word_id
  let length := info.seg_end_idx - info.seg_start_idx
  let start := info.rowIdx + shift
  pySliceI df start (start + length)

/-- The segment slice restricted by the sil/fix mask (`.loc[sil_mask]`). -/
def filteredSlice (info : InfoRec) (df : List CtmRow) : List CtmRow :=
  (segSlice info df).filter silMask

/-- `slice.unique()` followed by in-place `sort()` : the distinct values in
ascending order. -/
def pyUniqueSorted (l : List Int) : List Int :=
  List.insertionSort (· ≤ ·) l.dedup

/-- `labeler.get_segment_speaker` (lines 296-317): the speaker id of a
segment, `-1` for several speakers. `none` models the `IndexError` raised by
`mpids[0]` when the masked slice is empty. -/
def getSegmentSpeaker (info : InfoRec) (df : List CtmRow) : Option Int :=
  let sl := (filteredSlice info df).map (·.mpid)
  let mpids := pyUniqueSorted sl
  if mpids.length = 2 ∧ (0 : Int) ∈ mpids ∧ sl.countP (· == 0) < 2 then mpids.get? 1
  else if 1 < mpids.length then some (-1)
  else mpids.get? 0

/-- `" ".join(l)` keeping only the first occurrence of each value, modeling
`" ".join(slice.unique())` in `labeler.get_segment_language` line 337. -/
def pyUniqueFirst (l : List String) : List String :=
  l.foldl (fun acc x => if x ∈ acc then acc else acc ++ [x]) []

/-- `labeler.get_segment_language` (lines 320-342). -/
def getSegmentLanguage (info : InfoRec) (df : List CtmRow) : String :=
  let sl := (filteredSlice info df).map (·.lang)
  let langs := String.intercalate " " (pyUniqueFirst sl)
  if pyIn "fi" langs && pyIn "sv" langs then "fi+sv"
  else if pyIn "sv" langs then "sv"
  else "fi"

/-- `labeler.form_new_utterance_id` (lines 345-364):
`f"{row.mpid:05}-{session}-{s:08}-{e:08}"` with `s = int(row.start * 100)`,
`e = int(row.end * 100)` when `row.mpid > 0`, else the empty string. -/
def form_new_utterance_id (row : SegRow) (session : String) : String :=
  if row.mpid > 0 then
    String.mk (pyFormatPadInt 5 row.mpid ++
      '-' :: (session.toList ++
        '-' :: (pyFormatPadInt 8 (pyInt (row.start * 100)) ++
          '-' :: pyFormatPadInt 8 (pyInt (row.end_ * 100)))))
  else ""

/-- Row-wise `info.apply` with exception propagation: the per-row results in
order, or `none` as soon as one row raises. -/
def mapOption (f : α → Option β) : List α → Option (List β)
  | [] => some []
  | x :: xs =>
    match f x with
    | none => none
    | some b =>
      match mapOption f xs with
      | none => none
      | some bs => some (b :: bs)

/-- `labeler.get_labels` (lines 273-293): compute the `mpid` column (a crash
of `get_segment_speaker` propagates as `none`), then the `lang` column, then
`new_uttid` and `recordid`.  The pandas assignment
`segments_df["mpid"] = (...).values` raises when the value array's length
differs from the frame's, which `none` models as well. -/
def get_labels (df : List CtmRow) (segs : List SegRow) (info : List InfoRec)
    (session : String) : Option (List SegRow) :=
  match mapOption (fun r => getSegmentSpeaker r df) info with
  | none => none
  | some mpids =>
    if mpids.length = segs.length then
      let langs := info.map (fun r => getSegmentLanguage r df)
      let withCols := (segs.zip (mpids.zip langs)).map
        (fun p => { p.1 with mpid := p.2.1, lang := p.2.2 })
      some (withCols.map (fun s =>
        { s with new_uttid := form_new_utterance_id s session, recordid := session }))
    else none

/-! ### Output filtering (`postprocessing.py` lines 77-137) -/

/-- The kept mask of `postprocess_session` line 92:
`(segments.df.new_uttid != "") & (segments.df.lang == "fi")`. -/
def keptMask (r : SegRow) : Bool :=
  !(r.new_uttid == "") && (r.lang == "fi")

/-- Modelled from the spec: `save_df` of the `transcriptMatcher.IO` module
(absent from the sources; only `postprocessing.py` and its tests refer to it)
writes exactly the rows of the dataframe it is passed to the output file.  A
written file is modelled as the list of its rows. -/
def save_df (rows : List SegRow) : List SegRow := rows

/-- The per-session output of `postprocess_session` / `save_output`
(lines 85-137): the kept file gets the rows passing `keptMask`, the
`.dropped` file gets the complement.  `none` models the session-level
`except Exception` handler: the session aborts and writes nothing. -/
def postprocessSessionOutputs (df : List CtmRow) (segs : List SegRow)
    (info : List InfoRec) (session : String) : Option (List SegRow × List SegRow) :=
  match get_labels df segs info session with
  | none => none
  | some labeled =>
    some (save_df (labeled.filter keptMask),
      save_df (labeled.filter (fun r => !keptMask r)))

/-- `match.rewrite_segments_and_text` (`speakerAligner/match.py` lines
248-295), after the matching step: the explicit count check of lines 272-273
runs before any label is computed; then the same labeling and filtering as
`get_labels`/`save_output`.  `df` is the already speaker-matched CTM. -/
def rewrite_segments_and_text (df : List CtmRow) (segs : List SegRow)
    (info : List InfoRec) (session : String) :
    Except String (List SegRow × List SegRow) :=
  if info.length ≠ segs.length then
    Except.error "Different amount of segments in ctm_edits and Kaldi segments files."
  else
    match get_labels df segs info session with
    | none => Except.error "IndexError: index 0 is out of bounds"
    | some labeled =>
      Except.ok (labeled.filter keptMask, labeled.filter (fun r => !keptMask r))

/-! ### Segment-id splitting (`speakerAligner/IO.py` lines 190-206) -/

/-- `IO.split_segment_id` : either `rsplit("-", 2)` plus a split on `"["`
(bracketed form), or `rsplit("-", 3)`; the numeric fields are divided by 100.
`none` models the `ValueError` Python raises on an unpacking or parsing
failure. -/
def split_segment_id (segment_id : String) : Option (ℚ × ℚ × Int) :=
  if containsSeq ['['] segment_id.toList then
    match rsplitK '-' 2 segment_id.toList with
    | [_, bg, en] =>
      match splitOnChar '[' en with
      | [e, num] => do
        let b ← parseNatQ bg
        let e ← parseNatQ e
        let n ← parseNatQ (num.filter (fun c => !(c == ']')))
        pure ((b : ℚ) / 100, (e : ℚ) / 100, (n : Int))
      | _ => none
    | _ => none
  else
    match rsplitK '-' 3 segment_id.toList with
    | [_, bg, en, num] => do
      let b ← parseNatQ bg
      let e ← parseNatQ en
      let n ← parseNatQ num
      pure ((b : ℚ) / 100, (e : ℚ) / 100, (n : Int))
    | _ => none

/-! ### Boundary adjustment (`labeler.py` lines 99-147) -/

/-- `numpy.ndarray.argmax` on a boolean array: the position of the first
`true`, or 0 when there is none. -/
def argmaxBool (l : List Bool) : Nat :=
  if l.contains true then l.findIdx (· == true) else 0

/-- `labeler.adjust_indices` (lines 99-123).  The entry check raises
`ValueError("Found segment is of length 0.")` when `start_idx == end_idx`;
an empty `iloc` slice makes `argmax` raise a different `ValueError`. -/
def adjust_indices (df : List CtmRow) (start_idx end_idx : Nat) :
    Except String (Nat × Nat) :=
  if start_idx = end_idx then Except.error "Found segment is of length 0."
  else
    let cors := (pySlice df start_idx end_idx).map (fun r => r.edit == "cor")
    if cors.isEmpty then Except.error "attempt to get argmax of an empty sequence"
    else
      let first_cor_idx := argmaxBool cors
      let last_rev := argmaxBool cors.reverse
      let last_cor_idx := if last_rev > 0 then last_rev + 1 else last_rev
      Except.ok (start_idx + first_cor_idx, end_idx - last_cor_idx)

/-- The conditional of `labeler.assign_speaker` lines 142-143: Swedish
statements skip `adjust_indices`. -/
def adjustStep (lang : String) (df : List CtmRow) (s e : Nat) :
    Except String (Nat × Nat) :=
  if pyIn "sv" lang then Except.ok (s, e) else adjust_indices df s e

/-- Position of the first `"cor"` row in an edit slice (spec-side notion used
to describe the tightened start). -/
def firstCorIdx (edits : List String) : Nat :=
  edits.findIdx (· == "cor")

/-- Position of the last `"cor"` row in an edit slice (spec-side notion used
to describe the tightened end). -/
def lastCorIdx (edits : List String) : Nat :=
  edits.length - 1 - edits.reverse.findIdx (· == "cor")

/-! ### The statement loop (`labeler.match_ctm_to_transcript` lines 72-96) -/

/-- The `for txt, stmnt in zip(...)` loop body with its
`except (ValueError, RuntimeError)` handler: a failing statement increments
the `failed` counter, appends a formatted message, and the loop continues
with the next statement; a successful one updates the dataframe. -/
def runStatements (step : δ → σ → Except String δ) (fmt : σ → String → String) :
    δ → Nat → List String → List σ → δ × Nat × List String
  | df, failed, errors, [] => (df, failed, errors)
  | df, failed, errors, s :: rest =>
    match step df s with
    | Except.ok df' => runStatements step fmt df' failed errors rest
    | Except.error e => runStatements step fmt df (failed + 1) (errors ++ [fmt s e]) rest

/-! ### Statement preparation (`labeler.match_ctm_to_transcript` lines 75-88) -/

/-- The `texts` list before filtering: the whole statement text, or — when an
embedded chairman utterance is present — the text partitioned around the
literal `"#ch_statement"` with the separator slot replaced by the embedded
text (lines 75-80). -/
def pieceList (mainText embText : String) : List String :=
  if embText ≠ "" then
    let p := partitionSeq "#ch_statement".toList mainText.toList
    [String.mk p.1, embText, String.mk p.2.2]
  else [mainText]

/-- Lines 81-87: keep the pieces whose raw text has more than one token of
`txt.strip().split(" ")`, and normalize the kept pieces with
`preprocessor.apply` (the pluggable recipe, abstracted as `norm`).  The
result's length is what line 88 adds to the `statements` counter. -/
def prepareTexts (mainText embText : String) (norm : String → String) : List String :=
  ((pieceList mainText embText).filter (fun t => 1 < rawTokenCount t)).map norm

/-- A concrete normalizer instance in the shape of the repository's test
recipe (`tests/data/simple_recipe.py`): it deletes punctuation characters and
strips the result. -/
def normEx (s : String) : String :=
  String.mk (pyStrip (s.toList.filter (fun c => !(c ∈ ['.', ',', '!', '?', ':']))))

/-! ### The window search (`labeler.find_statement` lines 150-192) -/

/-- `next((m for m in diff.get_matching_blocks() if m.size >= min_m),
Match(0, 0, 0))` of line 181. -/
def firstBlockGE (blocks : List MatchBlock) (minM : Nat) : MatchBlock :=
  (blocks.find? (fun m => minM ≤ m.size)).getD ⟨0, 0, 0⟩

/-- `value_counts(normalize=True)` of a string series, looked up at one key:
the relative frequency of `v`. -/
def valueCounts (l : List String) (v : String) : ℚ :=
  (l.countP (· == v) : ℚ) / (l.length : ℚ)

/-- `v in series.value_counts(...)` : the key is present iff it occurs. -/
def vcContains (l : List String) (v : String) : Bool :=
  0 < l.countP (· == v)

/-- The acceptance test of `find_statement` line 188:
`"sv" in lang or ("cor" in edit_ratios and edit_ratios["cor"] > 0.5)`. -/
def acceptBlock (lang : String) (edits : List String) : Bool :=
  pyIn "sv" lang ||
    (vcContains edits "cor" && decide ((1 : ℚ) / 2 < valueCounts edits "cor"))

/-- The inner `while start < step` loop of `find_statement` (lines 179-191)
for the window at offset `iOff * step` of the masked stream.  The diff engine
`blocks` (difflib, an external dependency) maps the current
`(window[start:], text[:words_matched])` pair to its matching blocks; `idx`
is `masked.index`, and `endFn s` stands for
`find_end_index(masked.transcript[s:], text)`.  On acceptance the pair
`(masked.index[s], end)` is returned; on rejection the loop advances `start`
by `match.a + words_matched` and re-seeds the diff within the same window; a
block of size 0 breaks out of the window (`none`).  `fuel` makes the
recursion structural; the loop body consumes one unit per iteration. -/
def innerLoop (blocks : List String → List String → List MatchBlock)
    (idx endFn : Nat → Nat) (maskedEdits : List String)
    (window text : List String) (lang : String)
    (wordsMatched iOff step : Nat) : Nat → Nat → Option (Nat × Nat)
  | _, 0 => none
  | start, fuel + 1 =>
    if start < step then
      if (firstBlockGE (blocks (window.drop start) (text.take wordsMatched))
          (min wordsMatched 5)).size = 0 then none
      else
        if acceptBlock lang ((maskedEdits.drop
            (start + (firstBlockGE (blocks (window.drop start) (text.take wordsMatched))
              (min wordsMatched 5)).a + iOff * step)).take
            (firstBlockGE (blocks (window.drop start) (text.take wordsMatched))
              (min wordsMatched 5)).size) then
          some (idx (start + (firstBlockGE (blocks (window.drop start)
                (text.take wordsMatched)) (min wordsMatched 5)).a + iOff * step),
            endFn (start + (firstBlockGE (blocks (window.drop start)
                (text.take wordsMatched)) (min wordsMatched 5)).a + iOff * step))
        else
          innerLoop blocks idx endFn maskedEdits window text lang
            wordsMatched iOff step
            (start + (firstBlockGE (blocks (window.drop start) (text.take wordsMatched))
              (min wordsMatched 5)).a + wordsMatched) fuel
    else none

/-! ### Concrete instances used by counterexamples and witnesses -/

/-- A two-row CTM carrying a matched Swedish statement of MP 5. -/
def dfSv : List CtmRow :=
  [⟨"hej", "cor", 5, "sv"⟩, ⟨"nej", "cor", 5, "sv"⟩]

/-- The segment-info record covering both rows of `dfSv`. -/
def infoSv : InfoRec := ⟨0, 1, 0, 2, 0⟩

/-- An unlabeled segment row spanning 1.0 s - 2.0 s. -/
def segSv : SegRow := ⟨"u1", "", ((1 : ℕ) : ℚ), ((2 : ℕ) : ℚ), 0, "", ""⟩

/-- A CTM slice whose edits are `cor, cor, ins`: the last `cor` is not the
final row. -/
def dfCorCorIns : List CtmRow :=
  [⟨"a", "cor", 0, ""⟩, ⟨"b", "cor", 0, ""⟩, ⟨"c", "ins", 0, ""⟩]

/-- A CTM slice whose edits are `ins, cor, ins`: tightening it yields an
empty range. -/
def dfInsCorIns : List CtmRow :=
  [⟨"a", "ins", 0, ""⟩, ⟨"b", "cor", 0, ""⟩, ⟨"c", "ins", 0, ""⟩]

/-- A four-row CTM with one real speaker (1742) and one stray unmatched row. -/
def dfStray : List CtmRow :=
  [⟨"yksi", "cor", 1742, "fi"⟩, ⟨"kaksi", "sub", 0, ""⟩,
   ⟨"kolme", "cor", 1742, "fi"⟩, ⟨"eps", "sil", 0, ""⟩]

/-- The segment-info record covering all rows of `dfStray`. -/
def infoStray : InfoRec := ⟨0, 1, 10, 14, 10⟩

/-- A segment row used together with `dfStray`. -/
def segStray : SegRow := ⟨"u2", "", ((0 : ℕ) : ℚ), ((2 : ℕ) : ℚ), 0, "", ""⟩

/-- The row `segSv` as labeled by `get_labels dfSv [segSv] [infoSv] "001-2015"`. -/
def rSv : SegRow :=
  ⟨"u1", "001-2015", ((1 : ℕ) : ℚ), ((2 : ℕ) : ℚ), 5, "sv",
    "00005-001-2015-00000100-00000200"⟩

/-- The row `segStray` as labeled by
`get_labels dfStray [segStray] [infoStray] "001-2015"`. -/
def rStray : SegRow :=
  ⟨"u2", "001-2015", ((0 : ℕ) : ℚ), ((2 : ℕ) : ℚ), 1742, "fi",
    "01742-001-2015-00000000-00000200"⟩

/-- A segment row of MP 123 spanning 12 s - 56 s, already labeled Finnish. -/
def segRoundTrip : SegRow :=
  ⟨"u3", "", ((12 : ℕ) : ℚ), ((56 : ℕ) : ℚ), 123, "fi", ""⟩

/-- A segment-info record whose CTM slice is empty. -/
def infoEmpty : InfoRec := ⟨0, 1, 0, 0, 0⟩

/-- A diff engine stub that always reports one block of five tokens. -/
def blocksEx : List String → List String → List MatchBlock :=
  fun _ _ => [⟨0, 0, 5⟩]

/-! ### Helper lemmas -/

theorem mapOption_length {f : α → Option β} :
    ∀ {l : List α} {bs : List β}, mapOption f l = some bs → bs.length = l.length := by
  intro l
  induction l with
  | nil => intro bs h; simp only [mapOption] at h; cases h; rfl
  | cons x xs ih =>
    intro bs h
    simp only [mapOption] at h
    cases hx : f x with
    | none => rw [hx] at h; cases h
    | some b =>
      rw [hx] at h
      cases hxs : mapOption f xs with
      | none => rw [hxs] at h; cases h
      | some bs' =>
        rw [hxs] at h
        cases h
        simp [ih hxs]

theorem mapOption_eq_none {f : α → Option β} {l : List α} {a : α}
    (ha : a ∈ l) (h : f a = none) : mapOption f l = none := by
  induction l with
  | nil => cases ha
  | cons x xs ih =>
    simp only [mapOption]
    rcases List.mem_cons.mp ha with rfl | hmem
    · rw [h]
    · cases hx : f x with
      | none => rfl
      | some b => rw [ih hmem]

theorem pyInt_natCast (n : ℕ) : pyInt ((n : ℚ)) = (n : ℤ) := by
  unfold pyInt
  rw [if_neg (not_lt.mpr (by positivity))]
  rw [Rat.floor_def']
  simp

theorem pyInt_natCast_mul100 (n : ℕ) : pyInt ((n : ℚ) * 100) = ((n * 100 : ℕ) : ℤ) := by
  have h : (n : ℚ) * 100 = ((n * 100 : ℕ) : ℚ) := by push_cast; ring
  rw [h, pyInt_natCast]

theorem form_new_utterance_id_natTimes (u rc : String) (a b : ℕ) (m : Int)
    (lg nu session : String) :
    form_new_utterance_id ⟨u, rc, (a : ℚ), (b : ℚ), m, lg, nu⟩ session =
      if m > 0 then
        String.mk (pyFormatPadInt 5 m ++
          '-' :: (session.toList ++
            '-' :: (pyFormatPadInt 8 ((a * 100 : ℕ) : ℤ) ++
              '-' :: pyFormatPadInt 8 ((b * 100 : ℕ) : ℤ))))
      else "" := by
  unfold form_new_utterance_id
  simp only [pyInt_natCast_mul100]

theorem get_labels_stray :
    get_labels dfStray [segStray] [infoStray] "001-2015" = some [rStray] := by
  have h : get_labels dfStray [segStray] [infoStray] "001-2015" =
      some [{ uttid := "u2", recordid := "001-2015", start := ((0 : ℕ) : ℚ),
              end_ := ((2 : ℕ) : ℚ), mpid := 1742, lang := "fi",
              new_uttid := form_new_utterance_id
                ⟨"u2", "", ((0 : ℕ) : ℚ), ((2 : ℕ) : ℚ), 1742, "fi", ""⟩ "001-2015" }] := rfl
  rw [h, form_new_utterance_id_natTimes]
  norm_num
  decide

theorem postprocess_stray :
    postprocessSessionOutputs dfStray [segStray] [infoStray] "001-2015" =
      some ([rStray], []) := by
  unfold postprocessSessionOutputs
  rw [get_labels_stray]
  decide

theorem get_labels_sv :
    get_labels dfSv [segSv] [infoSv] "001-2015" = some [rSv] := by
  have h : get_labels dfSv [segSv] [infoSv] "001-2015" =
      some [{ uttid := "u1", recordid := "001-2015", start := ((1 : ℕ) : ℚ),
              end_ := ((2 : ℕ) : ℚ), mpid := 5, lang := "sv",
              new_uttid := form_new_utterance_id
                ⟨"u1", "", ((1 : ℕ) : ℚ), ((2 : ℕ) : ℚ), 5, "sv", ""⟩ "001-2015" }] := rfl
  rw [h, form_new_utterance_id_natTimes]
  norm_num
  decide

theorem get_labels_new_uttid {df : List CtmRow} {segs : List SegRow}
    {info : List InfoRec} {session : String} {labeled : List SegRow}
    (h : get_labels df segs info session = some labeled) :
    ∀ r ∈ labeled, r.new_uttid = form_new_utterance_id r session := by
  unfold get_labels at h
  split at h
  · cases h
  · split at h
    · have hl := (Option.some.inj h).symm
      intro r hr
      rw [hl] at hr
      simp only [List.mem_map] at hr
      obtain ⟨s, ⟨t, _, rfl⟩, rfl⟩ := hr
      rfl
    · cases h

theorem form_new_utterance_id_eq_empty_iff (r : SegRow) (session : String) :
    form_new_utterance_id r session = "" ↔ r.mpid ≤ 0 := by
  unfold form_new_utterance_id
  by_cases h : r.mpid > 0
  · rw [if_pos h]
    constructor
    · intro he
      have hdd := congrArg String.data he
      simp at hdd
    · intro hle; omega
  · rw [if_neg h]
    simp only [true_iff, eq_self_iff_true]
    omega

/-- Claim C1: a segment row labeled by `get_labels` is written to the kept
output files iff its new utterance id is non-empty and its language label is
`"fi"`; every kept segment has `mpid > 0` and `lang = "fi"`; every other
segment is written to the `.dropped` outputs instead. -/
theorem kept_iff_new_uttid_and_fi {df : List CtmRow} {segs : List SegRow}
    {info : List InfoRec} {session : String} {labeled kept dropped : List SegRow}
    (h : get_labels df segs info session = some labeled)
    (hout : postprocessSessionOutputs df segs info session = some (kept, dropped))
    (r : SegRow) (hr : r ∈ labeled) :
    (r ∈ kept ↔ (r.new_uttid ≠ "" ∧ r.lang = "fi")) ∧
    (r ∈ kept → 0 < r.mpid ∧ r.lang = "fi") ∧
    (r ∉ kept → r ∈ dropped) := by
  have hkd : kept = labeled.filter keptMask ∧
      dropped = labeled.filter (fun x => !keptMask x) := by
    unfold postprocessSessionOutputs at hout
    rw [h] at hout
    have := Option.some.inj hout
    unfold save_df at this
    exact ⟨(congrArg Prod.fst this).symm, (congrArg Prod.snd this).symm⟩
  have hmask : keptMask r = true ↔ (r.new_uttid ≠ "" ∧ r.lang = "fi") := by
    unfold keptMask
    simp [Bool.and_eq_true, Bool.not_eq_true', beq_iff_eq, bne_iff_ne]
  have hmem : r ∈ kept ↔ (r.new_uttid ≠ "" ∧ r.lang = "fi") := by
    rw [hkd.1, List.mem_filter]
    constructor
    · intro ⟨_, hk⟩; exact hmask.mp hk
    · intro hprop; exact ⟨hr, hmask.mpr hprop⟩
  refine ⟨hmem, ?_, ?_⟩
  · intro hk
    have hprop := hmem.mp hk
    refine ⟨?_, hprop.2⟩
    have huid := get_labels_new_uttid h r hr
    have := (form_new_utterance_id_eq_empty_iff r session).not.mp
      (huid ▸ hprop.1)
    omega
  · intro hnk
    rw [hkd.2, List.mem_filter]
    refine ⟨hr, ?_⟩
    simp only [Bool.not_eq_eq_eq_not, Bool.not_true]
    by_contra hne
    exact hnk (hkd.1 ▸ List.mem_filter.mpr ⟨hr, by
      cases hkm : keptMask r with
      | false => exact absurd hkm hne
      | true => rfl⟩)

/-- Witness for C1 at the concrete labeled session `dfStray`. -/
theorem kept_iff_new_uttid_and_fi_witness :
    get_labels dfStray [segStray] [infoStray] "001-2015" = some [rStray] ∧
    postprocessSessionOutputs dfStray [segStray] [infoStray] "001-2015" =
      some ([rStray], []) ∧
    rStray ∈ [rStray] ∧
    ((rStray ∈ [rStray] ↔ (rStray.new_uttid ≠ "" ∧ rStray.lang = "fi")) ∧
      (rStray ∈ [rStray] → 0 < rStray.mpid ∧ rStray.lang = "fi") ∧
      (rStray ∉ [rStray] → rStray ∈ ([] : List SegRow))) :=
  ⟨get_labels_stray, postprocess_stray, by decide,
    kept_iff_new_uttid_and_fi get_labels_stray postprocess_stray rStray (by decide)⟩

/-- Claim C3, counterexample: the Swedish-labeled segment of `dfSv` has
`mpid = 5 > 0` and `lang = "sv" ≠ "fi"`, yet its new utterance id is NOT
reassigned to the empty string — `form_new_utterance_id` never looks at the
language. -/
theorem new_uttid_ignores_language_cex :
    get_labels dfSv [segSv] [infoSv] "001-2015" = some [rSv] ∧
    rSv.lang ≠ "fi" ∧ rSv.mpid = 5 ∧ rSv.new_uttid ≠ "" ∧
    ¬(rSv.new_uttid = "" ↔ (rSv.mpid = 0 ∨ rSv.mpid = -1 ∨ rSv.lang ≠ "fi")) :=
  ⟨get_labels_sv, by decide, by decide, by decide, by decide⟩

/-- Claim C3 (amended): after segment labeling, a segment row's new utterance
id is the empty string iff its mpid is nonpositive (0, -1, or any other
nonpositive value); the language label plays no role in the reassignment. -/
theorem new_uttid_empty_iff_mpid_nonpos {df : List CtmRow} {segs : List SegRow}
    {info : List InfoRec} {session : String} {labeled : List SegRow}
    (h : get_labels df segs info session = some labeled)
    (r : SegRow) (hr : r ∈ labeled) :
    r.new_uttid = "" ↔ r.mpid ≤ 0 := by
  rw [get_labels_new_uttid h r hr]
  exact form_new_utterance_id_eq_empty_iff r session

/-- Witness for the amended C3 at the concrete labeled session `dfSv`. -/
theorem new_uttid_empty_iff_mpid_nonpos_witness :
    get_labels dfSv [segSv] [infoSv] "001-2015" = some [rSv] ∧
    rSv ∈ [rSv] ∧ (rSv.new_uttid = "" ↔ rSv.mpid ≤ 0) :=
  ⟨get_labels_sv, by decide,
    new_uttid_empty_iff_mpid_nonpos get_labels_sv rSv (by decide)⟩

/-! Properties of `pyUniqueSorted`. -/

theorem pyUniqueSorted_perm (l : List Int) : (pyUniqueSorted l).Perm l.dedup :=
  List.perm_insertionSort _ _

theorem mem_pyUniqueSorted {x : Int} {l : List Int} :
    x ∈ pyUniqueSorted l ↔ x ∈ l := by
  rw [(pyUniqueSorted_perm l).mem_iff]
  exact List.mem_dedup

theorem sorted_pyUniqueSorted (l : List Int) :
    List.Sorted (· ≤ ·) (pyUniqueSorted l) :=
  List.sorted_insertionSort _ _

theorem pyUniqueSorted_eq_nil {l : List Int} :
    pyUniqueSorted l = [] ↔ l = [] := by
  constructor
  · intro h
    have hd : l.dedup = [] := by
      have := (pyUniqueSorted_perm l).length_eq
      rw [h] at this
      exact List.length_eq_zero.mp this.symm
    exact (List.dedup_eq_nil l).mp hd
  · intro h
    subst h
    rfl

/-- Claim C10: `get_segment_speaker` returns an mpid exactly when the
segment's CTM slice is non-empty after excluding `sil`/`fix` rows; a segment
whose filtered slice is empty makes the whole session's postprocessing abort
(no kept or dropped output at all), rather than being skipped per segment. -/
theorem speaker_needs_nonempty_slice :
    (∀ (i : InfoRec) (df : List CtmRow),
      (getSegmentSpeaker i df).isSome = true ↔ filteredSlice i df ≠ []) ∧
    (∀ (df : List CtmRow) (segs : List SegRow) (info : List InfoRec)
        (session : String) (i : InfoRec), i ∈ info → filteredSlice i df = [] →
      postprocessSessionOutputs df segs info session = none) := by
  have key : ∀ (i : InfoRec) (df : List CtmRow),
      (getSegmentSpeaker i df).isSome = true ↔ filteredSlice i df ≠ [] := by
    intro i df
    unfold getSegmentSpeaker
    by_cases hsl : filteredSlice i df = []
    · rw [hsl]
      simp [pyUniqueSorted]
    · have hne : (filteredSlice i df).map (·.mpid) ≠ [] := by
        simp [hsl]
      have hu : pyUniqueSorted ((filteredSlice i df).map (·.mpid)) ≠ [] := by
        intro hcon
        exact hne (pyUniqueSorted_eq_nil.mp hcon)
      constructor
      · intro _; exact hsl
      · intro _
        set u := pyUniqueSorted ((filteredSlice i df).map (·.mpid)) with hudef
        have hlen0 : 0 < u.length := List.length_pos.mpr hu
        by_cases h1 : u.length = 2 ∧ (0 : Int) ∈ u ∧
            ((filteredSlice i df).map (·.mpid)).countP (· == 0) < 2
        · rw [if_pos h1]
          rw [Option.isSome_iff_exists]
          have h1l : 1 < u.length := by omega
          exact ⟨u.get ⟨1, h1l⟩, List.get?_eq_get h1l⟩
        · rw [if_neg h1]
          by_cases h2 : 1 < u.length
          · rw [if_pos h2]; rfl
          · rw [if_neg h2]
            rw [Option.isSome_iff_exists]
            exact ⟨u.get ⟨0, hlen0⟩, List.get?_eq_get hlen0⟩
  refine ⟨key, ?_⟩
  intro df segs info session i hi hempty
  have hnone : getSegmentSpeaker i df = none := by
    have := (key i df).not
    simp only [not_not, Bool.not_eq_true, Option.not_isSome_iff_eq_none] at this
    cases hgs : getSegmentSpeaker i df with
    | none => rfl
    | some v =>
      exact absurd hempty (by
        have : (getSegmentSpeaker i df).isSome = true := by rw [hgs]; rfl
        exact (key i df).mp this)
  unfold postprocessSessionOutputs get_labels
  rw [mapOption_eq_none hi hnone]

/-- Witness for C10: a concrete nonempty slice yields a speaker, and a
segment-info record with an empty slice aborts the whole session. -/
theorem speaker_needs_nonempty_slice_witness :
    ((getSegmentSpeaker infoSv dfSv).isSome = true ↔ filteredSlice infoSv dfSv ≠ []) ∧
    (infoEmpty ∈ [infoEmpty] ∧ filteredSlice infoEmpty dfSv = [] ∧
      postprocessSessionOutputs dfSv [segSv] [infoEmpty] "001-2015" = none) :=
  ⟨speaker_needs_nonempty_slice.1 infoSv dfSv,
    by decide, by decide,
    speaker_needs_nonempty_slice.2 dfSv [segSv] [infoEmpty] "001-2015" infoEmpty
      (by decide) (by decide)⟩

/-- Claim C4: the speaker label of a segment is computed from the distinct
mpid values over its CTM slice with `sil`/`fix` rows excluded: a single
distinct value yields that value; exactly two distinct values with one of
them `0` and fewer than two rows equal to `0` yields the non-zero value;
every other case with more than one distinct value yields `-1`.  (Stated for
nonnegative mpids, the values the matcher writes.) -/
theorem getSegmentSpeaker_policy (i : InfoRec) (df : List CtmRow)
    (hpos : ∀ r ∈ filteredSlice i df, 0 ≤ r.mpid) :
    (∀ v, pyUniqueSorted ((filteredSlice i df).map (·.mpid)) = [v] →
        getSegmentSpeaker i df = some v) ∧
    (∀ v, v ≠ 0 →
        (pyUniqueSorted ((filteredSlice i df).map (·.mpid)) = [0, v] ∨
          pyUniqueSorted ((filteredSlice i df).map (·.mpid)) = [v, 0]) →
        ((filteredSlice i df).map (·.mpid)).countP (· == 0) < 2 →
        getSegmentSpeaker i df = some v) ∧
    (1 < (pyUniqueSorted ((filteredSlice i df).map (·.mpid))).length →
        ¬((pyUniqueSorted ((filteredSlice i df).map (·.mpid))).length = 2 ∧
            (0 : Int) ∈ pyUniqueSorted ((filteredSlice i df).map (·.mpid)) ∧
            ((filteredSlice i df).map (·.mpid)).countP (· == 0) < 2) →
        getSegmentSpeaker i df = some (-1)) := by
  refine ⟨?_, ?_, ?_⟩
  · intro v hu
    simp only [getSegmentSpeaker]
    rw [hu]
    norm_num
  · intro v hv hu hcount
    rcases hu with hu | hu
    · simp only [getSegmentSpeaker]
      rw [hu]
      rw [if_pos ⟨rfl, by simp, hcount⟩]
      rfl
    · exfalso
      have hmemv : v ∈ pyUniqueSorted ((filteredSlice i df).map (·.mpid)) := by
        rw [hu]; simp
      have hvsl : v ∈ (filteredSlice i df).map (·.mpid) :=
        mem_pyUniqueSorted.mp hmemv
      obtain ⟨r, hr, hrv⟩ := List.mem_map.mp hvsl
      have hv0 : 0 ≤ v := hrv ▸ hpos r hr
      have hsorted := sorted_pyUniqueSorted ((filteredSlice i df).map (·.mpid))
      rw [hu] at hsorted
      have hvle : v ≤ 0 := List.rel_of_sorted_cons hsorted 0 (by simp)
      exact hv (le_antisymm hvle hv0)
  · intro h1 h2
    simp only [getSegmentSpeaker]
    rw [if_neg h2, if_pos h1]

/-- Witness for C4 on `dfStray`: two distinct values with a single stray `0`
yield the real speaker 1742. -/
theorem getSegmentSpeaker_policy_witness :
    (∀ r ∈ filteredSlice infoStray dfStray, 0 ≤ r.mpid) ∧
    (1742 : Int) ≠ 0 ∧
    pyUniqueSorted ((filteredSlice infoStray dfStray).map (·.mpid)) = [0, 1742] ∧
    ((filteredSlice infoStray dfStray).map (·.mpid)).countP (· == 0) < 2 ∧
    getSegmentSpeaker infoStray dfStray = some 1742 :=
  ⟨by decide, by decide, by decide, by decide,
    (getSegmentSpeaker_policy infoStray dfStray (by decide)).2.1 1742 (by decide)
      (Or.inl (by decide)) (by decide)⟩

/-- Claim C8: the count of segment-info records must equal the number of
segment rows, and a mismatch is fatal for the session: the explicit check of
`rewrite_segments_and_text` raises before any labeling, so the outcome does
not even depend on the CTM contents. -/
theorem segment_count_mismatch_fatal (df : List CtmRow) (segs : List SegRow)
    (info : List InfoRec) (session : String) :
    (rewrite_segments_and_text df segs info session =
        Except.error "Different amount of segments in ctm_edits and Kaldi segments files." ↔
      info.length ≠ segs.length) ∧
    (info.length ≠ segs.length → ∀ df' : List CtmRow,
      rewrite_segments_and_text df segs info session =
        rewrite_segments_and_text df' segs info session) := by
  constructor
  · constructor
    · intro h
      by_contra heq
      unfold rewrite_segments_and_text at h
      rw [if_neg (not_not_intro heq)] at h
      cases hgl : get_labels df segs info session with
      | none =>
        rw [hgl] at h
        exact absurd (Except.error.inj h) (by decide)
      | some labeled =>
        rw [hgl] at h
        cases h
    · intro hne
      unfold rewrite_segments_and_text
      rw [if_pos hne]
  · intro hne df'
    unfold rewrite_segments_and_text
    rw [if_pos hne, if_pos hne]

/-- Witness for C8: one info record against zero segment rows is fatal. -/
theorem segment_count_mismatch_fatal_witness :
    rewrite_segments_and_text dfSv ([] : List SegRow) [infoSv] "001-2015" =
      Except.error "Different amount of segments in ctm_edits and Kaldi segments files." :=
  (segment_count_mismatch_fatal dfSv [] [infoSv] "001-2015").1.mpr (by decide)

/-! Helper lemmas for boundary adjustment. -/

theorem findIdx_map_eq (f : α → β) (p : β → Bool) :
    ∀ l : List α, (l.map f).findIdx p = l.findIdx (fun a => p (f a)) := by
  intro l
  induction l with
  | nil => rfl
  | cons x xs ih => simp [List.findIdx_cons, ih]

theorem contains_true_of_mem {edits : List String} (h : "cor" ∈ edits) :
    ((edits.map (fun x => x == "cor")).contains true) = true := by
  induction edits with
  | nil => cases h
  | cons e es ih =>
    rcases List.mem_cons.mp h with rfl | hmem
    · simp
    · simp
      exact Or.inr hmem

theorem pySlice_length {l : List α} {a b : Nat} (hb : b ≤ l.length) :
    (pySlice l a b).length = b - a := by
  unfold pySlice
  rw [List.length_take, List.length_drop]
  omega

/-- Claim C5, counterexample: on the edit slice `cor, cor, ins` the tightened
range is `(0, 1)` — the end becomes the INDEX of the last `cor` row (1), not
one past it (2) as the claim states. -/
theorem boundary_tightening_cex :
    adjustStep "fi" dfCorCorIns 0 3 = Except.ok (0, 1) ∧
    lastCorIdx ((pySlice dfCorCorIns 0 3).map (·.edit)) + 1 = 2 ∧
    (1 : Nat) ≠ 2 :=
  ⟨rfl, by decide, by decide⟩

/-- Claim C5 (amended): a statement whose language contains `"sv"` is written
back without boundary adjustment; for every other statement the adjustment
moves the start to the first `cor` row of the range and moves the end to the
original end when the final row of the range is a `cor` (which is one past
the last `cor`), and otherwise to the index of the last `cor` row (one less
than the claim's "one past"). -/
theorem swedish_bypass_and_tightening (lang : String) (df : List CtmRow) (s e : Nat) :
    (pyIn "sv" lang = true → adjustStep lang df s e = Except.ok (s, e)) ∧
    (pyIn "sv" lang = false → s < e → e ≤ df.length →
      "cor" ∈ (pySlice df s e).map (·.edit) →
      adjustStep lang df s e =
        Except.ok (s + firstCorIdx ((pySlice df s e).map (·.edit)),
          if ((pySlice df s e).map (·.edit)).getLast? = some "cor" then e
          else s + lastCorIdx ((pySlice df s e).map (·.edit)))) := by
  constructor
  · intro hsv
    unfold adjustStep
    rw [if_pos hsv]
  · intro hsv hse hle hcor
    unfold adjustStep
    rw [if_neg (by rw [hsv]; exact Bool.false_ne_true)]
    unfold adjust_indices
    rw [if_neg (Nat.ne_of_lt hse)]
    set edits := (pySlice df s e).map (·.edit) with hedits
    have hlen : edits.length = e - s := by
      rw [hedits, List.length_map]
      exact pySlice_length hle
    have hmapmap : (pySlice df s e).map (fun r => r.edit == "cor") =
        edits.map (fun x => x == "cor") := by
      rw [hedits, List.map_map]
      rfl
    rw [hmapmap]
    have hne : edits ≠ [] := by
      intro hcon
      rw [hcon] at hcor
      cases hcor
    rw [if_neg (by
      simp only [List.isEmpty_eq_true, List.map_eq_nil_iff]
      exact hne)]
    show Except.ok (s + argmaxBool (edits.map (fun x => x == "cor")),
        e - (if argmaxBool ((edits.map (fun x => x == "cor")).reverse) > 0
          then argmaxBool ((edits.map (fun x => x == "cor")).reverse) + 1
          else argmaxBool ((edits.map (fun x => x == "cor")).reverse))) = _
    have hfirst : argmaxBool (edits.map (fun x => x == "cor")) = firstCorIdx edits := by
      unfold argmaxBool firstCorIdx
      rw [if_pos (contains_true_of_mem hcor)]
      rw [findIdx_map_eq]
      simp
    have hrevmap : (edits.map (fun x => x == "cor")).reverse =
        edits.reverse.map (fun x => x == "cor") := by
      rw [List.map_reverse]
    have hcorrev : "cor" ∈ edits.reverse := List.mem_reverse.mpr hcor
    have hrev : argmaxBool ((edits.map (fun x => x == "cor")).reverse) =
        edits.reverse.findIdx (fun x => x == "cor") := by
      unfold argmaxBool
      rw [hrevmap, if_pos (contains_true_of_mem hcorrev)]
      rw [findIdx_map_eq]
      simp
    set r0 := edits.reverse.findIdx (fun x => x == "cor") with hr0def
    have hr0lt : r0 < edits.length := by
      have := List.findIdx_lt_length_of_exists
        (⟨"cor", hcorrev, by simp⟩ : ∃ x ∈ edits.reverse, (x == "cor") = true)
      rw [List.length_reverse] at this
      exact this
    obtain ⟨h, t, hht⟩ : ∃ h t, edits.reverse = h :: t := by
      cases hrv : edits.reverse with
      | nil =>
        exact absurd (by rw [← List.reverse_reverse edits, hrv]; rfl) hne
      | cons h t => exact ⟨h, t, rfl⟩
    have hlast : edits.getLast? = some h := by
      rw [← List.head?_reverse, hht]
      rfl
    rw [hfirst, hrev]
    simp only [gt_iff_lt]
    by_cases hc : h = "cor"
    · have hgl : edits.getLast? = some "cor" := by rw [hlast, hc]
      have hr0 : r0 = 0 := by
        rw [hr0def, hht, List.findIdx_cons]
        simp [hc]
      rw [hgl, hr0]
      norm_num
    · have hgl : edits.getLast? ≠ some "cor" := by
        rw [hlast]
        intro hcon
        exact hc (Option.some.inj hcon)
      rw [if_neg hgl]
      have hr0pos : 0 < r0 := by
        rw [hr0def, hht, List.findIdx_cons]
        simp only [show (h == "cor") = false from by
          cases hb : h == "cor" with
          | false => rfl
          | true => exact absurd (by simpa using hb) hc]
        simp
      rw [if_pos hr0pos]
      have hlc : lastCorIdx edits = edits.length - 1 - r0 := by
        unfold lastCorIdx
        rw [← hr0def]
      rw [hlc, hlen]
      rw [hlen] at hr0lt
      have hfin : e - (r0 + 1) = s + (e - s - 1 - r0) := by omega
      rw [hfin]

/-- Witness for the amended C5 at a Swedish statement and at the concrete
slice `cor, cor, ins`. -/
theorem swedish_bypass_and_tightening_witness :
    adjustStep "sv.p" dfCorCorIns 0 3 = Except.ok (0, 3) ∧
    adjustStep "fi" dfCorCorIns 0 3 =
      Except.ok (0 + firstCorIdx ((pySlice dfCorCorIns 0 3).map (·.edit)),
        if ((pySlice dfCorCorIns 0 3).map (·.edit)).getLast? = some "cor" then 3
        else 0 + lastCorIdx ((pySlice dfCorCorIns 0 3).map (·.edit))) :=
  ⟨(swedish_bypass_and_tightening "sv.p" dfCorCorIns 0 3).1 (by decide),
    (swedish_bypass_and_tightening "fi" dfCorCorIns 0 3).2 (by decide) (by decide)
      (by decide) (by decide)⟩

/-- Claim C6, counterexample: tightening the slice `ins, cor, ins` yields the
EMPTY range `(1, 1)` without any error — the `ZeroLength` check fires on the
input range, not on the result of tightening. -/
theorem zero_length_cex :
    adjust_indices dfInsCorIns 0 3 = Except.ok (1, 1) ∧
    ¬(adjust_indices dfInsCorIns 0 3 =
        Except.error "Found segment is of length 0.") :=
  ⟨rfl, fun hcon => by cases hcon⟩

/-- Claim C6 (amended): `adjust_indices` fails with the ZeroLength error
exactly when the INPUT range is empty (`start_idx == end_idx`); such a
failure increments the failed-statement counter, appends a diagnostic, and
the statement loop continues with the remaining statements. -/
theorem zero_length_on_empty_input (df : List CtmRow) (s e : Nat) :
    (adjust_indices df s e = Except.error "Found segment is of length 0." ↔ s = e) ∧
    (∀ {δ σ : Type} (step : δ → σ → Except String δ) (fmt : σ → String → String)
        (d : δ) (failed : Nat) (errors : List String) (x : σ) (rest : List σ)
        (msg : String), step d x = Except.error msg →
      runStatements step fmt d failed errors (x :: rest) =
        runStatements step fmt d (failed + 1) (errors ++ [fmt x msg]) rest) := by
  constructor
  · constructor
    · intro hq
      by_contra hne
      unfold adjust_indices at hq
      rw [if_neg hne] at hq
      by_cases hemp : ((pySlice df s e).map (fun r => r.edit == "cor")).isEmpty = true
      · rw [if_pos hemp] at hq
        exact absurd (Except.error.inj hq) (by decide)
      · rw [if_neg hemp] at hq
        cases hq
    · intro heq
      unfold adjust_indices
      rw [if_pos heq]
  · intro δ σ step fmt d failed errors x rest msg hstep
    show (match step d x with
      | Except.ok df' => runStatements step fmt df' failed errors rest
      | Except.error err =>
          runStatements step fmt d (failed + 1) (errors ++ [fmt x err]) rest) =
      runStatements step fmt d (failed + 1) (errors ++ [fmt x msg]) rest
    rw [hstep]

/-- Witness for the amended C6: the empty input range `(2, 2)` raises, and a
failing statement in the loop increments the counter and leaves the tail to
be processed. -/
theorem zero_length_on_empty_input_witness :
    (adjust_indices dfInsCorIns 2 2 = Except.error "Found segment is of length 0." ↔
      (2 : Nat) = 2) ∧
    runStatements (fun (_ : Unit) (_ : Nat) => Except.error "boom") (fun _ m => m)
        () 0 [] [1, 2] =
      runStatements (fun (_ : Unit) (_ : Nat) => Except.error "boom") (fun _ m => m)
        () 1 ["boom"] [2] :=
  ⟨(zero_length_on_empty_input dfInsCorIns 2 2).1,
    (zero_length_on_empty_input dfInsCorIns 2 2).2
      (fun _ _ => Except.error "boom") (fun _ m => m) () 0 [] 1 [2] "boom" rfl⟩

/-- The acceptance test of `find_statement` line 188 equals the claim's
arithmetic formulation: Swedish bypass, or strictly more than half of the
rows are `cor`. -/
theorem acceptBlock_iff (lang : String) (edits : List String) (hne : edits ≠ []) :
    (acceptBlock lang edits = true) ↔
      (pyIn "sv" lang = true ∨ 2 * edits.countP (· == "cor") > edits.length) := by
  have hL : 0 < edits.length := List.length_pos.mpr hne
  unfold acceptBlock vcContains valueCounts
  simp only [Bool.or_eq_true, Bool.and_eq_true, decide_eq_true_eq]
  constructor
  · rintro (h | ⟨hc, hr⟩)
    · exact Or.inl h
    · refine Or.inr ?_
      rw [div_lt_div_iff₀ (by norm_num) (by exact_mod_cast hL)] at hr
      have : (edits.length : ℚ) < (edits.countP (· == "cor") : ℚ) * 2 := by
        calc (edits.length : ℚ) = 1 * edits.length := (one_mul _).symm
          _ < _ := hr
      have := (by exact_mod_cast this : edits.length < edits.countP (· == "cor") * 2)
      omega
  · rintro (h | h)
    · exact Or.inl h
    · refine Or.inr ⟨by omega, ?_⟩
      rw [div_lt_div_iff₀ (by norm_num) (by exact_mod_cast hL)]
      calc (1 : ℚ) * edits.length = edits.length := one_mul _
        _ < edits.countP (· == "cor") * 2 := by exact_mod_cast by omega

/-- Claim C2: in the inner search loop of `find_statement`, a candidate
matching block of size `m.size` at masked-stream index
`s = start + m.a + iOff * step` is accepted (returning the statement range)
iff the statement's language contains `"sv"` or strictly more than half of
the `m.size` masked rows `[s, s + m.size)` have edit `"cor"`; on rejection
the search continues within the same window at `start + m.a + words_matched`. -/
theorem find_statement_acceptance
    (blocks : List String → List String → List MatchBlock)
    (idx endFn : Nat → Nat) (maskedEdits : List String)
    (window text : List String) (lang : String)
    (wordsMatched iOff step start fuel : Nat) (m : MatchBlock)
    (hm : firstBlockGE (blocks (window.drop start) (text.take wordsMatched))
        (min wordsMatched 5) = m)
    (hsize : 0 < m.size) (hin : start < step)
    (hlen : start + m.a + iOff * step + m.size ≤ maskedEdits.length) :
    innerLoop blocks idx endFn maskedEdits window text lang wordsMatched iOff step
        start (fuel + 1) =
      if pyIn "sv" lang = true ∨
          2 * ((maskedEdits.drop (start + m.a + iOff * step)).take m.size).countP
            (· == "cor") > m.size then
        some (idx (start + m.a + iOff * step), endFn (start + m.a + iOff * step))
      else
        innerLoop blocks idx endFn maskedEdits window text lang wordsMatched iOff
          step (start + m.a + wordsMatched) fuel := by
  have hedlen : ((maskedEdits.drop (start + m.a + iOff * step)).take m.size).length
      = m.size := by
    rw [List.length_take, List.length_drop]
    omega
  have hedne : (maskedEdits.drop (start + m.a + iOff * step)).take m.size ≠ [] := by
    intro hcon
    rw [hcon] at hedlen
    simp at hedlen
    omega
  simp only [innerLoop, hm]
  rw [if_pos hin, if_neg (by omega : ¬m.size = 0)]
  rw [if_congr ((acceptBlock_iff lang _ hedne).trans (by rw [hedlen])) rfl rfl]

/-- Witness for C2: a five-token block with three of five rows `cor`
(ratio 3/5 > 0.5) is accepted for a Finnish statement. -/
theorem find_statement_acceptance_witness :
    innerLoop blocksEx id id ["cor", "cor", "cor", "ins", "ins"]
        ["a", "b", "c", "d", "e"] ["a", "b", "c", "d", "e"] "fi" 5 0 7500 0 (0 + 1) =
      some (0, 0) :=
  (find_statement_acceptance blocksEx id id ["cor", "cor", "cor", "ins", "ins"]
      ["a", "b", "c", "d", "e"] ["a", "b", "c", "d", "e"] "fi" 5 0 7500 0 0
      ⟨0, 0, 5⟩ (by decide) (by decide) (by decide) (by decide)).trans (by decide)

/-- Claim C7, counterexample: the piece `"a !"` has two RAW tokens, so it is
normalized and kept (and counted) even though its normalized text `"a"` has
only one token — the <2-token skip tests the raw text BEFORE normalization,
not the normalized text. -/
theorem skip_tests_raw_text_cex :
    prepareTexts "a !" "" normEx = ["a"] ∧
    rawTokenCount (normEx "a !") = 1 ∧
    1 < rawTokenCount "a !" :=
  ⟨by decide, by decide, by decide⟩

/-- Claim C7 (amended): a piece is silently skipped iff its RAW
(pre-normalization) text, stripped and split on spaces, has fewer than two
tokens; every surviving piece is normalized and matched independently, and
exactly the surviving pieces are added to the statements counter. -/
theorem raw_token_skip (mainText embText : String) (norm : String → String) :
    (prepareTexts mainText embText norm).length =
      (pieceList mainText embText).countP (fun t => decide (1 < rawTokenCount t)) ∧
    (∀ t ∈ pieceList mainText embText, 1 < rawTokenCount t →
      norm t ∈ prepareTexts mainText embText norm) ∧
    (∀ v ∈ prepareTexts mainText embText norm,
      ∃ t ∈ pieceList mainText embText, 1 < rawTokenCount t ∧ v = norm t) := by
  unfold prepareTexts
  refine ⟨?_, ?_, ?_⟩
  · rw [List.length_map, ← List.countP_eq_length_filter]
  · intro t ht hgt
    exact List.mem_map_of_mem _ (List.mem_filter.mpr ⟨ht, by simpa using hgt⟩)
  · intro v hv
    obtain ⟨t, ht, rfl⟩ := List.mem_map.mp hv
    have hf := List.mem_filter.mp ht
    exact ⟨t, hf.1, by simpa using hf.2, rfl⟩

/-- Witness for the amended C7 on a statement with an embedded utterance:
the pre- and post-embed pieces shrink to one raw token and are skipped, the
embedded text survives. -/
theorem raw_token_skip_witness :
    prepareTexts "alpha #ch_statement omega" "beta gamma" normEx = ["beta gamma"] ∧
    (prepareTexts "alpha #ch_statement omega" "beta gamma" normEx).length =
      (pieceList "alpha #ch_statement omega" "beta gamma").countP
        (fun t => decide (1 < rawTokenCount t)) ∧
    "beta gamma" ∈ pieceList "alpha #ch_statement omega" "beta gamma" ∧
    normEx "beta gamma" ∈ prepareTexts "alpha #ch_statement omega" "beta gamma" normEx :=
  ⟨by decide,
    (raw_token_skip "alpha #ch_statement omega" "beta gamma" normEx).1,
    by decide,
    (raw_token_skip "alpha #ch_statement omega" "beta gamma" normEx).2.1
      "beta gamma" (by decide) (by decide)⟩

/-! Decimal rendering and parsing round-trip. -/

theorem digitsLE_eq : ∀ (fuel n : Nat), n ≤ fuel → digitsLE fuel n = Nat.digits 10 n := by
  intro fuel
  induction fuel with
  | zero =>
    intro n hn
    have : n = 0 := by omega
    subst this
    rw [Nat.digits_zero]
    rfl
  | succ f ih =>
    intro n hn
    cases n with
    | zero =>
      rw [Nat.digits_zero]
      rfl
    | succ k =>
      show (k + 1) % 10 :: digitsLE f ((k + 1) / 10) = Nat.digits 10 (k + 1)
      have hdiv : (k + 1) / 10 ≤ f := by
        have := Nat.div_lt_self (Nat.succ_pos k) (by norm_num : 1 < 10)
        omega
      rw [ih _ hdiv]
      exact (Nat.digits_def' (by norm_num : 1 < 10) (Nat.succ_pos k)).symm

theorem digitChars_eq (n : Nat) :
    digitChars n = ((Nat.digits 10 n).map Nat.digitChar).reverse := by
  unfold digitChars
  rw [digitsLE_eq n n le_rfl]

theorem digitChar_isDigit {d : Nat} (h : d < 10) : (Nat.digitChar d).isDigit = true := by
  interval_cases d <;> decide

theorem charVal_digitChar {d : Nat} (h : d < 10) : charVal (Nat.digitChar d) = d := by
  interval_cases d <;> decide

theorem mem_digitChars_isDigit {c : Char} {n : Nat} (hc : c ∈ digitChars n) :
    c.isDigit = true := by
  rw [digitChars_eq] at hc
  rw [List.mem_reverse, List.mem_map] at hc
  obtain ⟨d, hd, rfl⟩ := hc
  exact digitChar_isDigit (Nat.digits_lt_base (by norm_num) hd)

theorem mem_padZeros {c : Char} {w : Nat} {l : List Char}
    (h : c ∈ padZeros w l) : c = '0' ∨ c ∈ l := by
  unfold padZeros at h
  rcases List.mem_append.mp h with h | h
  · exact Or.inl (List.eq_of_mem_replicate h)
  · exact Or.inr h

theorem padZeros_isDigit {c : Char} {w n : Nat}
    (h : c ∈ padZeros w (digitChars n)) : c.isDigit = true := by
  rcases mem_padZeros h with rfl | h
  · decide
  · exact mem_digitChars_isDigit h

theorem padZeros_ne_nil {w : Nat} {l : List Char} (hw : 0 < w) :
    padZeros w l ≠ [] := by
  intro hcon
  have hlen := congrArg List.length hcon
  rw [padZeros, List.length_append, List.length_replicate] at hlen
  simp only [List.length_nil] at hlen
  omega

theorem parseNatSeq_replicate_zero (k : Nat) (l : List Char) :
    parseNatSeq (List.replicate k '0' ++ l) = parseNatSeq l := by
  unfold parseNatSeq
  rw [List.foldl_append]
  congr 1
  induction k with
  | zero => rfl
  | succ j ih =>
    rw [List.replicate_succ, List.foldl_cons]
    exact ih

theorem foldr_digits_ofDigits : ∀ (L : List Nat), (∀ d ∈ L, d < 10) →
    (L.map Nat.digitChar).foldr (fun c acc => 10 * acc + charVal c) 0 =
      Nat.ofDigits 10 L := by
  intro L
  induction L with
  | nil => intro _; simp [Nat.ofDigits_nil]
  | cons d L ih =>
    intro h
    rw [List.map_cons, List.foldr_cons, ih (fun x hx => h x (List.mem_cons_of_mem d hx))]
    rw [charVal_digitChar (h d (List.mem_cons_self d L))]
    rw [Nat.ofDigits_cons]
    ring

theorem parseNatSeq_digitChars (n : Nat) : parseNatSeq (digitChars n) = n := by
  rw [digitChars_eq]
  unfold parseNatSeq
  rw [List.foldl_reverse]
  have hfr : ((Nat.digits 10 n).map Nat.digitChar).foldr
      (fun x y => 10 * y + charVal x) 0 =
      Nat.ofDigits 10 (Nat.digits 10 n) :=
    foldr_digits_ofDigits (Nat.digits 10 n)
      (fun d hd => Nat.digits_lt_base (by norm_num) hd)
  calc ((Nat.digits 10 n).map Nat.digitChar).foldr (fun x y => 10 * y + charVal x) 0
      = Nat.ofDigits 10 (Nat.digits 10 n) := hfr
    _ = n := by exact_mod_cast Nat.ofDigits_digits 10 n

theorem parseNatSeq_padZeros (w n : Nat) :
    parseNatSeq (padZeros w (digitChars n)) = n := by
  unfold padZeros
  rw [parseNatSeq_replicate_zero, parseNatSeq_digitChars]

theorem parseNatQ_padZeros {w n : Nat} (hw : 0 < w) :
    parseNatQ (padZeros w (digitChars n)) = some n := by
  have hall : (padZeros w (digitChars n)).all Char.isDigit = true := by
    rw [List.all_eq_true]
    intro c hc
    exact padZeros_isDigit hc
  unfold parseNatQ
  rw [if_pos ⟨padZeros_ne_nil hw, hall⟩, parseNatSeq_padZeros]

/-! Splitting lemmas. -/

theorem splitOnChar_ne_nil (sep : Char) : ∀ l : List Char, splitOnChar sep l ≠ [] := by
  intro l
  cases l with
  | nil => simp [splitOnChar]
  | cons c cs =>
    unfold splitOnChar
    cases h : splitOnChar sep cs with
    | nil => simp
    | cons a t =>
      by_cases hc : (c == sep) = true <;> simp [hc]

theorem splitOnChar_not_mem {sep : Char} : ∀ {a : List Char}, sep ∉ a →
    splitOnChar sep a = [a] := by
  intro a
  induction a with
  | nil => intro _; rfl
  | cons c cs ih =>
    intro h
    have hc : c ≠ sep := fun hcon => h (hcon ▸ List.mem_cons_self c cs)
    have hcs : sep ∉ cs := fun hcon => h (List.mem_cons_of_mem c hcon)
    have hcb : (c == sep) = false := by
      cases hx : c == sep with
      | false => rfl
      | true => exact absurd (by simpa using hx) hc
    show splitOnChar sep (c :: cs) = [c :: cs]
    conv_lhs => unfold splitOnChar
    rw [ih hcs]
    simp [hcb]

theorem splitOnChar_append {sep : Char} : ∀ {a : List Char} (b : List Char),
    sep ∉ a → splitOnChar sep (a ++ sep :: b) = a :: splitOnChar sep b := by
  intro a
  induction a with
  | nil =>
    intro b _
    show splitOnChar sep (sep :: b) = [] :: splitOnChar sep b
    conv_lhs => unfold splitOnChar
    cases h : splitOnChar sep b with
    | nil => exact absurd h (splitOnChar_ne_nil sep b)
    | cons x t => simp
  | cons c cs ih =>
    intro b h
    have hc : c ≠ sep := fun hcon => h (hcon ▸ List.mem_cons_self c cs)
    have hcs : sep ∉ cs := fun hcon => h (List.mem_cons_of_mem c hcon)
    have hcb : (c == sep) = false := by
      cases hx : c == sep with
      | false => rfl
      | true => exact absurd (by simpa using hx) hc
    show splitOnChar sep (c :: (cs ++ sep :: b)) = (c :: cs) :: splitOnChar sep b
    conv_lhs => unfold splitOnChar
    rw [ih b hcs]
    simp [hcb]

theorem containsSeq_single_eq_false {c : Char} : ∀ {l : List Char}, c ∉ l →
    containsSeq [c] l = false := by
  intro l
  induction l with
  | nil => intro _; rfl
  | cons b bs ih =>
    intro h
    have hb : c ≠ b := fun hcon => h (hcon ▸ List.mem_cons_self b bs)
    have hbs : c ∉ bs := fun hcon => h (List.mem_cons_of_mem b hcon)
    show (startsSeq [c] (b :: bs) || containsSeq [c] bs) = false
    rw [ih hbs]
    show (((c == b) && startsSeq [] bs) || false) = false
    have : (c == b) = false := by
      cases hcb : c == b with
      | false => rfl
      | true => exact absurd (by simpa using hcb) hb
    rw [this]
    rfl

theorem pyFormatPadInt_nonneg {w : Nat} {i : Int} (h : 0 ≤ i) :
    pyFormatPadInt w i = padZeros w (digitChars i.toNat) := by
  unfold pyFormatPadInt
  rw [if_neg (not_lt.mpr h)]

theorem split_segment_id_five (L p1 p2 p3 p4 p5 : List Char)
    (hbr : containsSeq ['['] L = false)
    (hsp : splitOnChar '-' L = [p1, p2, p3, p4, p5]) :
    split_segment_id (String.mk L) = (do
      let b ← parseNatQ p3
      let e ← parseNatQ p4
      let n ← parseNatQ p5
      pure ((b : ℚ) / 100, (e : ℚ) / 100, (n : Int))) := by
  unfold split_segment_id
  have htl : (String.mk L).toList = L := rfl
  rw [htl, hbr]
  rw [if_neg (by simp)]
  unfold rsplitK
  rw [hsp]
  norm_num

/-- Claim C9, counterexample: splitting the emitted new utterance id
`00123-001-2015-00001200-00005600` (mpid 123, session 001-2015, 12 s - 56 s)
with `split_segment_id` yields `(20.15, 12.0, 5600)` — the year over 100, the
start centiseconds over 100, and the end centiseconds — NOT the original
`(mpid, session, start, end)`: no component equals the mpid, and the session
string is not returned at all (the splitter returns a triple of numbers). -/
theorem split_roundtrip_cex :
    split_segment_id (form_new_utterance_id segRoundTrip "001-2015") =
      some (((2015 : ℕ) : ℚ) / 100, ((1200 : ℕ) : ℚ) / 100, ((5600 : ℕ) : ℤ)) ∧
    ((2015 : ℕ) : ℚ) / 100 ≠ ((123 : ℕ) : ℚ) ∧
    ((1200 : ℕ) : ℚ) / 100 ≠ ((123 : ℕ) : ℚ) ∧
    ((5600 : ℕ) : ℤ) ≠ ((123 : ℕ) : ℤ) := by
  have hform : form_new_utterance_id segRoundTrip "001-2015" =
      "00123-001-2015-00001200-00005600" := by
    rw [show segRoundTrip =
      (⟨"u3", "", ((12 : ℕ) : ℚ), ((56 : ℕ) : ℚ), 123, "fi", ""⟩ : SegRow) from rfl]
    rw [form_new_utterance_id_natTimes]
    norm_num
    decide
  refine ⟨?_, by norm_num, by norm_num, by norm_num⟩
  rw [hform]
  rfl

/-- Claim C9 (amended): splitting the emitted utterance id
`{mpid:05d}-{num}-{year}-{start_cs:08d}-{end_cs:08d}` with `split_segment_id`
does NOT yield `(mpid, session, start, end)`: the rightmost-3 `rsplit`
returns the triple `(year / 100, start_cs / 100, end_cs)` — the start time is
recovered (to 10 ms) only in the middle slot, the end only in centiseconds,
and the mpid and session are never recovered.  Stated for session
`"001-2015"` and nonnegative integral start/end times. -/
theorem split_of_emitted (u rc lg nu : String) (a b : Nat) (m : Int) (hm : 0 < m) :
    split_segment_id
        (form_new_utterance_id ⟨u, rc, (a : ℚ), (b : ℚ), m, lg, nu⟩ "001-2015") =
      some (((2015 : ℕ) : ℚ) / 100, ((a * 100 : ℕ) : ℚ) / 100, ((b * 100 : ℕ) : ℤ)) := by
  have hform : form_new_utterance_id ⟨u, rc, (a : ℚ), (b : ℚ), m, lg, nu⟩ "001-2015" =
      String.mk (padZeros 5 (digitChars m.toNat) ++
        '-' :: (['0', '0', '1'] ++
          '-' :: (['2', '0', '1', '5'] ++
            '-' :: (padZeros 8 (digitChars (a * 100)) ++
              '-' :: padZeros 8 (digitChars (b * 100)))))) := by
    rw [form_new_utterance_id_natTimes, if_pos hm]
    rw [pyFormatPadInt_nonneg (le_of_lt hm),
      pyFormatPadInt_nonneg (Int.natCast_nonneg (a * 100)),
      pyFormatPadInt_nonneg (Int.natCast_nonneg (b * 100))]
    rw [Int.toNat_natCast, Int.toNat_natCast]
    rfl
  set L := padZeros 5 (digitChars m.toNat) ++
    '-' :: (['0', '0', '1'] ++
      '-' :: (['2', '0', '1', '5'] ++
        '-' :: (padZeros 8 (digitChars (a * 100)) ++
          '-' :: padZeros 8 (digitChars (b * 100))))) with hLdef
  have hall : ∀ c ∈ L, c.isDigit = true ∨ c = '-' := by
    intro c hc
    rw [hLdef] at hc
    rcases List.mem_append.mp hc with h | h
    · exact Or.inl (padZeros_isDigit h)
    rcases List.mem_cons.mp h with rfl | h
    · exact Or.inr rfl
    rcases List.mem_append.mp h with h | h
    · have : c = '0' ∨ c = '0' ∨ c = '1' := by simpa using h
      rcases this with rfl | rfl | rfl <;> exact Or.inl (by decide)
    rcases List.mem_cons.mp h with rfl | h
    · exact Or.inr rfl
    rcases List.mem_append.mp h with h | h
    · have : c = '2' ∨ c = '0' ∨ c = '1' ∨ c = '5' := by simpa using h
      rcases this with rfl | rfl | rfl | rfl <;> exact Or.inl (by decide)
    rcases List.mem_cons.mp h with rfl | h
    · exact Or.inr rfl
    rcases List.mem_append.mp h with h | h
    · exact Or.inl (padZeros_isDigit h)
    rcases List.mem_cons.mp h with rfl | h
    · exact Or.inr rfl
    · exact Or.inl (padZeros_isDigit h)
  have hbr : containsSeq ['['] L = false := by
    refine containsSeq_single_eq_false ?_
    intro hc
    rcases hall '[' hc with h | h <;> exact absurd h (by decide)
  have hnomem : ∀ (w n : Nat), '-' ∉ padZeros w (digitChars n) := by
    intro w n hmem
    exact absurd (padZeros_isDigit hmem) (by decide)
  have hsp : splitOnChar '-' L = [padZeros 5 (digitChars m.toNat), ['0', '0', '1'],
      ['2', '0', '1', '5'], padZeros 8 (digitChars (a * 100)),
      padZeros 8 (digitChars (b * 100))] := by
    rw [hLdef]
    rw [splitOnChar_append _ (hnomem 5 m.toNat)]
    rw [splitOnChar_append _ (by decide)]
    rw [splitOnChar_append _ (by decide)]
    rw [splitOnChar_append _ (hnomem 8 (a * 100))]
    rw [splitOnChar_not_mem (hnomem 8 (b * 100))]
  rw [hform, split_segment_id_five L _ _ _ _ _ hbr hsp]
  rw [show parseNatQ ['2', '0', '1', '5'] = some 2015 from rfl]
  rw [parseNatQ_padZeros (by norm_num), parseNatQ_padZeros (by norm_num)]
  rfl

/-- Witness for the amended C9 at mpid 123 and times 12 s - 56 s. -/
theorem split_of_emitted_witness :
    split_segment_id
        (form_new_utterance_id ⟨"u3", "", ((12 : ℕ) : ℚ), ((56 : ℕ) : ℚ), 123, "fi", ""⟩
          "001-2015") =
      some (((2015 : ℕ) : ℚ) / 100, ((12 * 100 : ℕ) : ℚ) / 100, ((56 * 100 : ℕ) : ℤ)) :=
  split_of_emitted "u3" "" "fi" "" 12 56 123 (by decide)

end ParliamentTools
